import Mathlib

/-!
# Verification of the fractal-twig adapter (src/adapter.js)

Shallow embedding of the adapter's path resolution, template loading,
context patching, key regeneration and cache invalidation logic, with
theorems settling the specification claims.

JavaScript strings are modelled as Lean `String`s, but the string
operations the adapter uses (`startsWith`, `split('/')`, `join('/')`,
`slice`, substring search) are defined here over `String.data` so that
every definition evaluates by kernel reduction.
-/

namespace FractalTwig

/-- Models JavaScript `s.startsWith(p)`. -/
def jsStartsWith (s p : String) : Bool := p.data.isPrefixOf s.data

/-- Helper for `jsIncludes`: does `p` occur as a contiguous run in the
second list? -/
def includesAux (p : List Char) : List Char → Bool
  | [] => p.isPrefixOf []
  | c :: cs => p.isPrefixOf (c :: cs) || includesAux p cs

/-- Models JavaScript `s.includes(p)` (substring containment). -/
def jsIncludes (s p : String) : Bool := includesAux p.data s.data

/-- Models JavaScript `s.slice(n)` (drop the first `n` characters). -/
def jsDrop (s : String) (n : Nat) : String := String.mk (s.data.drop n)

/-- Helper for `jsSplitSlash`: accumulates the current chunk (reversed). -/
def splitSlashAux : List Char → List Char → List (List Char)
  | [], acc => [acc.reverse]
  | c :: cs, acc =>
      if c = '/' then acc.reverse :: splitSlashAux cs []
      else splitSlashAux cs (c :: acc)

/-- Models JavaScript `location.split('/')` (adapter.js line 193). -/
def jsSplitSlash (s : String) : List String :=
  (splitSlashAux s.data []).map String.mk

/-- Models JavaScript `chunks.join('/')` (adapter.js line 201). -/
def joinSlash : List String → String
  | [] => ""
  | [s] => s
  | s :: rest => s ++ "/" ++ joinSlash rest

/-- Models node's `Path.join(base, rel)` for the shapes the adapter uses:
a base directory with no trailing slash joined with a relative path, where
`Path.join` reduces to inserting a single separator. -/
def pathJoin (base rel : String) : String := base ++ "/" ++ rel

/-- Models node's `Path.relative(root, p)` for the in-tree case the
adapter relies on: when `p` lies under `root` the leading `root ++ "/"` is
stripped, otherwise `p` is returned unchanged. -/
def pathRelative (root p : String) : String :=
  if jsStartsWith p (root ++ "/") then jsDrop p (root.length + 1) else p

/-- JavaScript-like values as seen by the adapter's context patching code:
`prim` stands for any non-object, non-array value (strings, numbers,
serialized blobs); `arr` is an array of strings (only produced for the
`_keys` property); `obj` is a plain object as an insertion-ordered
association list of own enumerable string keys (a key present in the list
is defined; JavaScript `undefined` is modelled by absence). -/
inductive JVal : Type where
  | prim : String → JVal
  | arr : List String → JVal
  | obj : List (String × JVal) → JVal
deriving Repr

/-- Models `_.isPlainObject(val)` from adapter.js line 95. -/
def isPlainObjectB : JVal → Bool
  | .obj _ => true
  | _ => false

/-- Models the key test `_.isString(key) && !key.startsWith('_')` from
adapter.js lines 92 and 95 (keys are always strings in the embedding). -/
def keyIsPublic (k : String) : Bool := !(jsStartsWith k "_")

/-- Models `_.compact`: drops falsey elements; `undefined` is `none` and
the empty string is the only falsey string. -/
def compact (l : List (Option String)) : List String :=
  l.filterMap (fun o => match o with
    | some s => if s = "" then none else some s
    | none => none)

/-- The `_keys` value computed at adapter.js line 91:
`_.compact(_.map(obj, (val, key) => (_.isString(key) && !key.startsWith('_')) ? key : undefined))`. -/
def computeKeys (l : List (String × JVal)) : List String :=
  compact (l.map (fun p => if keyIsPublic p.1 then some p.1 else none))

/-- Models JavaScript property assignment `obj[k] = v` on a plain object
as an insertion-ordered association list: overwrite in place when the key
exists, append otherwise. -/
def setProp (k : String) (v : JVal) (l : List (String × JVal)) : List (String × JVal) :=
  if l.any (fun p => p.1 = k) then l.map (fun p => if p.1 = k then (k, v) else p)
  else l ++ [(k, v)]

/-- Models reading `obj[k]` on a plain object: `none` is `undefined`. -/
def lookupProp (k : String) (l : List (String × JVal)) : Option JVal :=
  match l.find? (fun p => p.1 = k) with
  | some p => some p.2
  | none => none

mutual
/-- Models `setKeys` from adapter.js lines 89-99, acting on a value. The
source first assigns `obj._keys` (computed from the keys of `obj` before
the assignment, line 91) and then loops over the object recursing into
plain-object values under non-underscore keys (lines 94-98). Here the
recursion over the original entries is written before the `_keys`
assignment; this is the same function because the `_keys` entry written by
`setProp` has an underscore key (so the source's loop never recurses into
it and its position carries no recursion), `setProp` changes no other
entry, and the recursion changes no key. On a non-object value the source
would store nothing observable, modelled as the identity. -/
def setKeysVal : JVal → JVal
  | .prim s => .prim s
  | .arr a => .arr a
  | .obj l => .obj (setProp "_keys" (.arr (computeKeys l)) (setKeysEntries l))

/-- Models the loop of `setKeys` (adapter.js lines 94-98) over the entries
of an object: `_.each(obj, (val, key) => { if (_.isPlainObject(val) &&
(_.isString(key) && !key.startsWith('_'))) setKeys(val); })`. -/
def setKeysEntries : List (String × JVal) → List (String × JVal)
  | [] => []
  | (k, v) :: rest =>
      (if isPlainObjectB v && keyIsPublic k then (k, setKeysVal v) else (k, v)) ::
        setKeysEntries rest
end

mutual
/-- The paths (as key sequences from the root mapping) of the nested
mappings visited by a run of `setKeys` (adapter.js lines 89-99): the root
object itself, plus, for every plain-object value under a non-underscore
key, the visits inside it. -/
def visitPaths : JVal → List (List String)
  | .obj l => [] :: visitPathsEntries l
  | _ => []

/-- Entry part of `visitPaths`, following the recursion condition of
adapter.js line 95. -/
def visitPathsEntries : List (String × JVal) → List (List String)
  | [] => []
  | (k, v) :: rest =>
      (if isPlainObjectB v && keyIsPublic k then (visitPaths v).map (fun p => k :: p) else []) ++
        visitPathsEntries rest
end

/-! ## PathResolver: `fixIncludePath` (adapter.js lines 176-206) -/

/-- The category set hard-coded at adapter.js line 194:
`var firstLevelFolderNames = ['atoms', 'molecules', 'organisms'];`. -/
def firstLevelFolderNames : List String := ["atoms", "molecules", "organisms"]

/-- Models the backward scan of adapter.js lines 197-204: the loop runs
`i` from the last index down to 0 and breaks at the first chunk contained
in `firstLevelFolderNames`, i.e. it finds the rightmost matching index;
`none` when the loop finishes without a match. -/
def lastMatchIdx : List String → Option Nat
  | [] => none
  | c :: cs =>
      match lastMatchIdx cs with
      | some i => some (i + 1)
      | none => if c ∈ firstLevelFolderNames then some 0 else none

/-- Core of `fixIncludePath` on the chunk list produced by
`location.split('/')`: on a match at (rightmost) index `i` the path is
rebuilt as `Path.join(source.fullPath, chunks.slice(i).join('/'))`
(adapter.js lines 200-201); with no match the function's `newLocation`
variable is never assigned and the JavaScript function returns
`undefined`, modelled as `none` (adapter.js line 205). -/
def fixIncludePathChunks (fullPath : String) (chunks : List String) : Option String :=
  match lastMatchIdx chunks with
  | some i => some (pathJoin fullPath (joinSlash (chunks.drop i)))
  | none => none

/-- Models `fixIncludePath(location)` (adapter.js lines 176-206). -/
def fixIncludePath (fullPath location : String) : Option String :=
  fixIncludePathChunks fullPath (jsSplitSlash location)

/-! ## TemplateLoader: the registered `fractal` loader (adapter.js lines 24-46) -/

/-- One template entry of the component library (spec section 3). -/
structure View : Type where
  path : String
  handle : String
  content : String
deriving Repr, DecidableEq

/-- The adapter configuration keys this core recognizes (adapter.js
lines 212-216). -/
structure AdapterCfg : Type where
  pristine : Bool
  handlePrefix : String
  importContext : Bool
deriving Repr, DecidableEq

/-- The library collaborator's data the loader consumes: its root
filesystem location `fullPath` and its enumerable collection of views. -/
structure Source : Type where
  fullPath : String
  views : List View
deriving Repr, DecidableEq

/-- Models `isHandle(str)` (adapter.js lines 128-130):
`str && str.startsWith(self._config.handlePrefix)`; an empty string is
falsey, so it is never a handle. -/
def isHandle (cfg : AdapterCfg) (s : String) : Bool :=
  s ≠ "" && jsStartsWith s cfg.handlePrefix

/-- Modelled from the spec: `self.getView(location)` (adapter.js line 37)
comes from the external adapter base class; per spec section 4.2 the
handle branch must "look up the View by handle directly", so it returns
the view registered under the given handle. -/
def getView (src : Source) (handle : String) : Option View :=
  src.views.find? (fun v => v.handle = handle)

/-- The `componentPath` variable of adapter.js line 36:
`location.startsWith("/") ? self.fixIncludePath(location) :
Path.join(source.fullPath, location)`; `none` is the `undefined` a failed
`fixIncludePath` leaves behind. -/
def componentPathFor (fullPath location : String) : Option String :=
  if jsStartsWith location "/" then fixIncludePath fullPath location
  else some (pathJoin fullPath location)

/-- Models `_.find(self.views, {path: componentPath})` (adapter.js
line 37); with `componentPath` undefined no view matches, because every
view's `path` is a defined string. -/
def findViewByPath (src : Source) (p : Option String) : Option View :=
  match p with
  | some q => src.views.find? (fun v => v.path = q)
  | none => none

/-- The message of the error thrown at adapter.js line 40. -/
def notFoundMessage (location : String) : String :=
  s!"Template {location} not found; make sure you add a leading forward slash to your path if you're trying to include a component -> include /atoms/button/button.twig for instance"

/-- Models the registered `fractal` template loader (adapter.js
lines 24-46), up to the template source it hands the engine: with
precompiled source that source is used unchanged; otherwise the view is
looked up by handle (handle locations) or by `componentPath` and its
`content` is returned; with no view the loader throws the not-found
error, modelled as `Except.error` with the thrown message. -/
def loader (cfg : AdapterCfg) (src : Source) (location : String)
    (precompiled : Option String) : Except String String :=
  match precompiled with
  | some s => .ok s
  | none =>
      let componentPath := componentPathFor src.fullPath location
      let view := if isHandle cfg location then getView src location
                  else findViewByPath src componentPath
      match view with
      | some v => .ok v.content
      | none => .error (notFoundMessage location)

/-! ## CacheInvalidator: `unCache` (adapter.js lines 109-124) -/

/-- The compiled-template registry `Twig.Templates.registry`, keyed by
template name; the compiled template object is modelled by its source
text. -/
abbrev Registry := List (String × String)

/-- Registry key presence, the truthiness tests of adapter.js
lines 118 and 121. -/
def regHas (reg : Registry) (k : String) : Bool := reg.any (fun p => p.1 = k)

/-- Models `delete registry[k]`. -/
def regDelete (reg : Registry) (k : String) : Registry :=
  reg.filter (fun p => !(p.1 = k))

/-- Registry lookup; `none` is `undefined`. -/
def regLookup (reg : Registry) (k : String) : Option String :=
  match reg.find? (fun p => p.1 = k) with
  | some p => some p.2
  | none => none

/-- The argument of `unCache`: the change events carry a view or only a
path string (adapter.js line 117). -/
inductive ViewOrPath : Type where
  | path : String → ViewOrPath
  | view : View → ViewOrPath
deriving Repr, DecidableEq

/-- Models `unCache(view)` (adapter.js lines 116-124): compute the path
key relative to the library root; if `view.handle` is truthy (on a plain
path string it is `undefined`) and registered, evict it; then evict the
path key if registered. -/
def unCache (root : String) (reg : Registry) (vp : ViewOrPath) : Registry :=
  let pathKey := pathRelative root (match vp with | .path s => s | .view v => v.path)
  let handleTruthy := match vp with
    | .path _ => none
    | .view v => if v.handle = "" then none else some v.handle
  let reg1 := match handleTruthy with
    | some hd => if regHas reg hd then regDelete reg hd else reg
    | none => reg
  if regHas reg1 pathKey then regDelete reg1 pathKey else reg1

/-! ## ContextPatcher: the patched `Twig.Template.prototype.render`
(adapter.js lines 54-102) and the `render` entry point (lines 137-174) -/

/-- The data this core reads off a library entity: `getContext()` and
`toJSON()` (adapter.js lines 76-77). -/
structure EntData : Type where
  ctxData : JVal
  json : JVal
deriving Repr

/-- A library entity as consumed at adapter.js line 74: its `isVariant`
flag, its own data, and the data of `entity.variants().default()`. -/
structure Ent : Type where
  isVariant : Bool
  selfData : EntData
  defaultVariantData : EntData
deriving Repr

/-- Models `entity = entity.isVariant ? entity : entity.variants().default()`
(adapter.js line 74). -/
def chosenEntData (e : Ent) : EntData :=
  if e.isVariant then e.selfData else e.defaultVariantData

/-- Models `handle.replace(new RegExp('^\\' + handlePrefix), '@')`
(adapter.js lines 71-72): replace the leading handle prefix, when
present, by the library collaborator's `@` marker. -/
def replaceHandleMarker (hp handle : String) : String :=
  if jsStartsWith handle hp then "@" ++ jsDrop handle hp.length else handle

/-- Models the handle resolution of adapter.js lines 59-68: a handle
identity is used directly; otherwise the identity is joined onto the
library root and the view with that path supplies its handle. -/
def resolveHandle (cfg : AdapterCfg) (src : Source) (id : String) : Option String :=
  if isHandle cfg id then some id
  else match src.views.find? (fun v => v.path = pathJoin src.fullPath id) with
    | some v => some v.handle
    | none => none

/-- Models the guards and entity lookup of adapter.js lines 57-73: skip
everything in pristine mode or when `this.id` is falsey; resolve a handle
(a falsey resolved handle also skips, line 70); then ask the library
collaborator `source.find` for the entity. -/
def patchEntity (cfg : AdapterCfg) (src : Source) (find : String → Option Ent)
    (id? : Option String) : Option Ent :=
  if cfg.pristine then none
  else match id? with
    | none => none
    | some id =>
        if id = "" then none
        else match resolveHandle cfg src id with
          | some handle =>
              if handle = "" then none
              else find (replaceHandleMarker cfg.handlePrefix handle)
          | none => none

mutual
/-- Models `_.cloneDeep(context)` (adapter.js line 76): a structurally
identical deep copy. -/
def cloneDeep : JVal → JVal
  | .prim s => .prim s
  | .arr a => .arr a
  | .obj l => .obj (cloneDeepEntries l)

/-- Entry part of `cloneDeep`. -/
def cloneDeepEntries : List (String × JVal) → List (String × JVal)
  | [] => []
  | (k, v) :: rest => (k, cloneDeep v) :: cloneDeepEntries rest
end

mutual
/-- Models the external collaborator `utils.defaultsDeep(dst, src)` from
adapter.js line 76 (the host's deep-defaults merge, not part of this
repository): every binding of `dst` is kept, except that two plain
objects under the same key are merged recursively; bindings of `src`
whose keys are absent from `dst` are appended. -/
def defaultsDeep : JVal → JVal → JVal
  | .obj dl, .obj sl =>
      .obj (defaultsEntries dl sl ++ sl.filter (fun q => !(dl.any (fun p => p.1 = q.1))))
  | d, _ => d

/-- Entry part of `defaultsDeep`: merge each destination binding with the
source binding of the same key, when present. -/
def defaultsEntries : List (String × JVal) → List (String × JVal) → List (String × JVal)
  | [], _ => []
  | (k, v) :: rest, sl =>
      (k, match lookupProp k sl with
          | some sv => defaultsDeep v sv
          | none => v) :: defaultsEntries rest sl
end

/-- Property assignment lifted to a value: on a non-object the assignment
of the source would be observable nowhere, modelled as the identity. -/
def jvalSetProp (k : String) (v : JVal) : JVal → JVal
  | .obj l => .obj (setProp k v l)
  | w => w

/-- Property read lifted to a value; `none` is `undefined`. -/
def jvalLookup (k : String) : JVal → Option JVal
  | .obj l => lookupProp k l
  | _ => none

/-! A tiny mutable-object world for the two frame-effect claims: a heap
is a list of cells, each holding one context object (as a value tree); a
reference is an index. An in-place JavaScript mutation rewrites the cell
it aliases; `_.cloneDeep` populates a fresh cell. -/

/-- Heap of context objects. -/
abbrev Heap := List JVal

/-- Dereference; reading a dangling reference yields an empty object. -/
def readRef (h : Heap) (r : Nat) : JVal := h.getD r (.obj [])

/-- In-place update of the cell a reference aliases. -/
def writeRef (h : Heap) (r : Nat) (v : JVal) : Heap := h.set r v

/-- Allocation of a fresh cell. -/
def allocRef (h : Heap) (v : JVal) : Heap × Nat := (h ++ [v], h.length)

/-- Models the context handling of the patched
`Twig.Template.prototype.render` (adapter.js lines 55-102) on the heap:
when an entity is resolved and `importContext` is on, the local
`context` variable is rebound to a fresh object built by
`utils.defaultsDeep(_.cloneDeep(context), entity.getContext())`
(line 76), and the `_self` assignment (line 77) and `setKeys(context)`
(line 78) mutate that fresh object; otherwise the caller's object is
passed through untouched. Returns the heap and the reference handed to
the original `render`. -/
def patchRenderH (cfg : AdapterCfg) (src : Source) (find : String → Option Ent)
    (id? : Option String) (h : Heap) (r : Nat) : Heap × Nat :=
  match patchEntity cfg src find id? with
  | some e =>
      if cfg.importContext then
        let ed := chosenEntData e
        let merged := defaultsDeep (cloneDeep (readRef h r)) ed.ctxData
        let hr1 := allocRef h merged
        let h2 := writeRef hr1.1 hr1.2 (jvalSetProp "_self" ed.json (readRef hr1.1 hr1.2))
        let h3 := writeRef h2 hr1.2 (setKeysVal (readRef h2 hr1.2))
        (h3, hr1.2)
      else (h, r)
  | none => (h, r)

/-- The optional `meta` argument of the `render` entry point (adapter.js
lines 137-148): `meta.self`, `meta.target`, `meta.env`, each possibly
undefined. -/
structure RenderMeta : Type where
  self : Option JVal
  target : Option JVal
  env : Option JVal

/-- Models `setEnv(key, value, context)` (adapter.js lines 169-173):
`if (context[key] === undefined && value !== undefined) context[key] = value`. -/
def setEnvVal (key : String) (value : Option JVal) (ctx : JVal) : JVal :=
  match value, ctx with
  | some v, .obj l => if l.any (fun p => p.1 = key) then .obj l else .obj (setProp key v l)
  | _, _ => ctx

/-- The reserved-key injection of `render` (adapter.js lines 143-148) as
a value transformation: in pristine mode nothing is injected; otherwise
`_self`, `_target`, `_env`, `_config` are injected in that order, the
last always carrying the defined object `this._app.config()`. -/
def renderInjectVal (cfg : AdapterCfg) (appConfig : JVal) (m : RenderMeta) (ctx : JVal) : JVal :=
  if cfg.pristine then ctx
  else setEnvVal "_config" (some appConfig)
        (setEnvVal "_env" m.env
          (setEnvVal "_target" m.target
            (setEnvVal "_self" m.self ctx)))

/-- One `setEnv` call on the heap: the caller's cell is read, the
conditional assignment applied, and the result stored back in the same
cell (the mutation of adapter.js line 171 happens on the caller's own
object). -/
def setEnvH (key : String) (value : Option JVal) (h : Heap) (r : Nat) : Heap :=
  writeRef h r (setEnvVal key value (readRef h r))

/-- The reserved-key injection of `render` (adapter.js lines 143-148) on
the heap: four `setEnv` calls against the caller-supplied context
reference. -/
def renderInjectH (cfg : AdapterCfg) (appConfig : JVal) (m : RenderMeta)
    (h : Heap) (r : Nat) : Heap :=
  if cfg.pristine then h
  else
    let h1 := setEnvH "_self" m.self h r
    let h2 := setEnvH "_target" m.target h1 r
    let h3 := setEnvH "_env" m.env h2 r
    setEnvH "_config" (some appConfig) h3 r

/-! ## Lemmas about the path resolver -/

theorem lastMatchIdx_eq_none (l : List String)
    (h : ∀ x ∈ l, x ∉ firstLevelFolderNames) : lastMatchIdx l = none := by
  induction l with
  | nil => rfl
  | cons c cs ih =>
      have hc : c ∉ firstLevelFolderNames := h c (List.mem_cons_self c cs)
      have hcs : lastMatchIdx cs = none := ih (fun x hx => h x (List.mem_cons_of_mem c hx))
      simp [lastMatchIdx, hcs, hc]

theorem lastMatchIdx_of_rightmost :
    ∀ (l : List String) (a : Nat) (ha : a < l.length),
      l.get ⟨a, ha⟩ ∈ firstLevelFolderNames →
      (∀ (j : Nat) (hj : j < l.length), a < j → l.get ⟨j, hj⟩ ∉ firstLevelFolderNames) →
      lastMatchIdx l = some a
  | [], a, ha, _, _ => absurd ha (by simp)
  | c :: cs, 0, _, hmem, hafter => by
      have hcs : lastMatchIdx cs = none := by
        apply lastMatchIdx_eq_none
        intro x hx
        obtain ⟨⟨j, hj⟩, rfl⟩ := List.mem_iff_get.mp hx
        exact hafter (j + 1) (by simpa using Nat.succ_lt_succ hj) (Nat.succ_pos j)
      simp only [List.get] at hmem
      simp [lastMatchIdx, hcs, hmem]
  | c :: cs, a + 1, ha, hmem, hafter => by
      have ih := lastMatchIdx_of_rightmost cs a (by simpa using Nat.lt_of_succ_lt_succ ha)
        (by simpa using hmem)
        (fun j hj hlt => by
          have := hafter (j + 1) (by simpa using Nat.succ_lt_succ hj) (Nat.succ_lt_succ hlt)
          simpa using this)
      simp [lastMatchIdx, ih]

theorem lastMatchIdx_append (pre l : List String) (i : Nat)
    (h : lastMatchIdx l = some i) :
    lastMatchIdx (pre ++ l) = some (pre.length + i) := by
  induction pre with
  | nil => simpa using h
  | cons c cs ih =>
      have : lastMatchIdx (cs ++ l) = some (cs.length + i) := ih
      simp [lastMatchIdx, this]
      omega

/-- C1 counterexample: on the rooted location `/foo/bar/baz.twig`, none of
whose segments is a category name, `fixIncludePath` does not fail: its
`newLocation` variable is never assigned and the undefined value (`none`)
is returned silently; the loader then proceeds with that undefined path,
finds no view (even though a view with the naively matching absolute path
exists), and fails only later with the generic not-found error. -/
theorem claimC1_counterexample :
    fixIncludePath "components" "/foo/bar/baz.twig" = none
  ∧ loader ⟨false, "@", false⟩
      ⟨"components", [⟨"components/foo/bar/baz.twig", "@baz", "BAZ"⟩]⟩
      "/foo/bar/baz.twig" none = .error (notFoundMessage "/foo/bar/baz.twig") :=
  ⟨rfl, rfl⟩

/-- C1 (amended): for every rooted location string none of whose path
segments equals a name in the category set, `fixIncludePath` silently
returns an undefined path (modelled `none`) rather than failing with a
ResolutionFailure; the failure surfaces only in the loader, whose view
lookup against the undefined path finds nothing, so the loader throws its
generic not-found error. -/
theorem claimC1_theorem (cfg : AdapterCfg) (src : Source) (location : String)
    (hseg : ∀ s ∈ jsSplitSlash location, s ∉ firstLevelFolderNames)
    (hroot : jsStartsWith location "/" = true)
    (hnh : isHandle cfg location = false) :
    (∀ root, fixIncludePath root location = none)
  ∧ loader cfg src location none = .error (notFoundMessage location) := by
  have hfix : ∀ root, fixIncludePath root location = none := by
    intro root
    unfold fixIncludePath fixIncludePathChunks
    rw [lastMatchIdx_eq_none _ hseg]
  refine ⟨hfix, ?_⟩
  simp [loader, hnh, componentPathFor, hroot, hfix, findViewByPath]

/-- C1 witness. -/
theorem claimC1_witness :
    (∀ root, fixIncludePath root "/x/y/z.twig" = none)
  ∧ loader ⟨false, "@", false⟩ ⟨"components", []⟩ "/x/y/z.twig" none
      = .error (notFoundMessage "/x/y/z.twig") :=
  claimC1_theorem ⟨false, "@", false⟩ ⟨"components", []⟩ "/x/y/z.twig"
    (by decide) (by decide) (by decide)

/-- C2: for every chunk list of a rooted location containing at least one
segment equal to a category name, `fixIncludePath` returns
`join(libraryRoot, segments[a:])` where `a` is the index of the rightmost
segment equal to a category name; in particular, for every nesting
prefix, a location ending in `atoms/button/button.twig` resolves to
`root/atoms/button/button.twig`, independent of the including template's
depth. -/
theorem claimC2_theorem :
    (∀ (root : String) (chunks : List String) (a : Nat) (ha : a < chunks.length),
       chunks.get ⟨a, ha⟩ ∈ firstLevelFolderNames →
       (∀ (j : Nat) (hj : j < chunks.length), a < j →
          chunks.get ⟨j, hj⟩ ∉ firstLevelFolderNames) →
       fixIncludePathChunks root chunks = some (pathJoin root (joinSlash (chunks.drop a))))
  ∧ (∀ (root : String) (nest : List String),
       fixIncludePathChunks root (("" :: nest) ++ ["atoms", "button", "button.twig"]) =
         some (pathJoin root "atoms/button/button.twig")) := by
  constructor
  · intro root chunks a ha hmem hafter
    unfold fixIncludePathChunks
    rw [lastMatchIdx_of_rightmost chunks a ha hmem hafter]
  · intro root nest
    have hsuf : lastMatchIdx ["atoms", "button", "button.twig"] = some 0 := by decide
    have happ := lastMatchIdx_append ("" :: nest) _ 0 hsuf
    have hdrop : (("" :: nest) ++ ["atoms", "button", "button.twig"]).drop
        (("" :: nest).length + 0) = ["atoms", "button", "button.twig"] := by
      simp [List.drop_left ("" :: nest) ["atoms", "button", "button.twig"]]
    unfold fixIncludePathChunks
    rw [happ]
    simp only [hdrop]
    rfl

/-- C2 witness: the location `/organisms/menu/atoms/button/button.twig`
(nesting depth 2) resolves to the library-root-anchored
`root/atoms/button/button.twig`. -/
theorem claimC2_witness :
    fixIncludePathChunks "root" (("" :: ["organisms", "menu"]) ++ ["atoms", "button", "button.twig"]) =
      some (pathJoin "root" "atoms/button/button.twig") :=
  claimC2_theorem.2 "root" ["organisms", "menu"]

/-! ## Lemmas about the registry and `unCache` -/

theorem regHas_delete_self (reg : Registry) (k : String) :
    regHas (regDelete reg k) k = false := by
  simp only [regHas, regDelete, List.any_eq_false]
  intro p hp
  simp only [List.mem_filter] at hp
  simpa using hp.2

theorem regHas_delete_mono (reg : Registry) (k k2 : String)
    (h : regHas reg k = false) : regHas (regDelete reg k2) k = false := by
  simp only [regHas, List.any_eq_false] at h ⊢
  intro p hp
  exact h p (List.mem_of_mem_filter hp)

theorem regHas_evict_self (m : Registry) (k : String) :
    regHas (if regHas m k then regDelete m k else m) k = false := by
  cases hx : regHas m k with
  | true => simpa using regHas_delete_self m k
  | false => simpa using hx

theorem regHas_evict_mono (m : Registry) (k k2 : String) (h : regHas m k = false) :
    regHas (if regHas m k2 then regDelete m k2 else m) k = false := by
  cases hx : regHas m k2 with
  | true => simpa using regHas_delete_mono m k k2 h
  | false => simpa using h

/-- C5: for every View with path `P` (relative to the library root) and
handle `H` (truthy), after `unCache` processes an event carrying that
View, the registry has no entry under key `P` and none under key `H`;
running `unCache` again is a no-op, and when neither key was registered
in the first place `unCache` returns the registry unchanged (eviction is
a safe no-op, not an error). -/
theorem claimC5_theorem (root : String) (reg : Registry) (v : View)
    (hh : v.handle ≠ "") :
    regHas (unCache root reg (.view v)) (pathRelative root v.path) = false
  ∧ regHas (unCache root reg (.view v)) v.handle = false
  ∧ unCache root (unCache root reg (.view v)) (.view v) = unCache root reg (.view v)
  ∧ (regHas reg (pathRelative root v.path) = false → regHas reg v.handle = false →
      unCache root reg (.view v) = reg) := by
  have hu : ∀ m : Registry, unCache root m (.view v) =
      (if regHas (if regHas m v.handle then regDelete m v.handle else m)
            (pathRelative root v.path)
        then regDelete (if regHas m v.handle then regDelete m v.handle else m)
            (pathRelative root v.path)
        else (if regHas m v.handle then regDelete m v.handle else m)) := by
    intro m
    simp only [unCache, if_neg hh]
  have hpath : regHas (unCache root reg (.view v)) (pathRelative root v.path) = false := by
    rw [hu reg]
    exact regHas_evict_self _ _
  have hhd : regHas (unCache root reg (.view v)) v.handle = false := by
    rw [hu reg]
    exact regHas_evict_mono _ _ _ (regHas_evict_self _ _)
  refine ⟨hpath, hhd, ?_, ?_⟩
  · rw [hu (unCache root reg (.view v))]
    simp [hhd, hpath]
  · intro hp0 hh0
    rw [hu reg]
    simp [hh0, hp0]

/-- C5 witness: evicting the only registered view removes both its keys,
a second eviction is a no-op, and eviction from an untouched registry is
the identity. -/
theorem claimC5_witness :
    regHas (unCache "root" [("atoms/a.twig", "A"), ("@a", "A")] (.view ⟨"root/atoms/a.twig", "@a", "A"⟩)) (pathRelative "root" "root/atoms/a.twig") = false
  ∧ regHas (unCache "root" [("atoms/a.twig", "A"), ("@a", "A")] (.view ⟨"root/atoms/a.twig", "@a", "A"⟩)) "@a" = false
  ∧ unCache "root" (unCache "root" [("atoms/a.twig", "A"), ("@a", "A")] (.view ⟨"root/atoms/a.twig", "@a", "A"⟩)) (.view ⟨"root/atoms/a.twig", "@a", "A"⟩)
      = unCache "root" [("atoms/a.twig", "A"), ("@a", "A")] (.view ⟨"root/atoms/a.twig", "@a", "A"⟩)
  ∧ (regHas [("other", "O")] (pathRelative "root" "root/atoms/a.twig") = false →
       regHas [("other", "O")] "@a" = false →
       unCache "root" [("other", "O")] (.view ⟨"root/atoms/a.twig", "@a", "A"⟩) = [("other", "O")]) :=
  ⟨( claimC5_theorem "root" [("atoms/a.twig", "A"), ("@a", "A")] ⟨"root/atoms/a.twig", "@a", "A"⟩ (by decide)).1,
   ( claimC5_theorem "root" [("atoms/a.twig", "A"), ("@a", "A")] ⟨"root/atoms/a.twig", "@a", "A"⟩ (by decide)).2.1,
   ( claimC5_theorem "root" [("atoms/a.twig", "A"), ("@a", "A")] ⟨"root/atoms/a.twig", "@a", "A"⟩ (by decide)).2.2.1,
   ( claimC5_theorem "root" [("other", "O")] ⟨"root/atoms/a.twig", "@a", "A"⟩ (by decide)).2.2.2⟩

/-! ## Lemmas about the loader -/

/-- C6: for every relative (unmarked, non-handle) location, the loader
joins the location directly onto the library root `source.fullPath` and
looks up the View by that joined path; the including template's directory
is not an input of the lookup at all. -/
theorem claimC6_theorem (cfg : AdapterCfg) (src : Source) (location : String)
    (hrel : jsStartsWith location "/" = false)
    (hnh : isHandle cfg location = false) :
    componentPathFor src.fullPath location = some (pathJoin src.fullPath location)
  ∧ loader cfg src location none =
      (match src.views.find? (fun v => v.path = pathJoin src.fullPath location) with
       | some v => Except.ok v.content
       | none => Except.error (notFoundMessage location)) := by
  have h1 : componentPathFor src.fullPath location = some (pathJoin src.fullPath location) := by
    simp [componentPathFor, hrel]
  refine ⟨h1, ?_⟩
  simp only [loader, hnh, Bool.false_eq_true, if_false, h1, findViewByPath]

/-- C6 witness. -/
theorem claimC6_witness :
    componentPathFor "root" "atoms/a.twig" = some (pathJoin "root" "atoms/a.twig") :=
  (claimC6_theorem ⟨false, "@", false⟩ ⟨"root", [⟨"root/atoms/a.twig", "@a", "A"⟩]⟩
    "atoms/a.twig" (by decide) (by decide)).1

theorem includesAux_append_left (p x y : List Char)
    (h : includesAux p y = true) : includesAux p (x ++ y) = true := by
  induction x with
  | nil => simpa using h
  | cons c cs ih => simp [includesAux, ih]

/-- C7: for every location for which no View is found by any lookup
branch and no precompiled source is supplied, the loader fails with the
not-found error, whose message contains the remediation hint "add a
leading forward slash" directing the caller to retry with a rooted
reference. -/
theorem claimC7_theorem (cfg : AdapterCfg) (src : Source) (location : String)
    (hhandle : ∀ v ∈ src.views, v.handle ≠ location)
    (hpath : ∀ v ∈ src.views, some v.path ≠ componentPathFor src.fullPath location) :
    loader cfg src location none = .error (notFoundMessage location)
  ∧ jsIncludes (notFoundMessage location) "add a leading forward slash" = true := by
  constructor
  · have hgv : getView src location = none := by
      simp only [getView, List.find?_eq_none]
      intro v hv
      simpa using hhandle v hv
    have hfv : findViewByPath src (componentPathFor src.fullPath location) = none := by
      cases hc : componentPathFor src.fullPath location with
      | none => rfl
      | some q =>
          simp only [findViewByPath, List.find?_eq_none]
          intro v hv
          have := hpath v hv
          rw [hc] at this
          simpa using this
    cases hih : isHandle cfg location with
    | true => simp [loader, hih, hgv]
    | false => simp [loader, hih, hfv]
  · have hmsg : notFoundMessage location =
        ("Template " ++ location) ++ " not found; make sure you add a leading forward slash to your path if you're trying to include a component -> include /atoms/button/button.twig for instance" := rfl
    rw [hmsg]
    show includesAux _ (("Template " ++ location).data ++ _) = true
    exact includesAux_append_left _ _ _ (by decide)

/-- C7 witness: an empty library turns every lookup branch up empty. -/
theorem claimC7_witness :
    loader ⟨false, "@", false⟩ ⟨"root", []⟩ "missing.twig" none
      = .error (notFoundMessage "missing.twig")
  ∧ jsIncludes (notFoundMessage "missing.twig") "add a leading forward slash" = true :=
  claimC7_theorem ⟨false, "@", false⟩ ⟨"root", []⟩ "missing.twig"
    (by simp) (by simp)

/-! ## Lemmas about property lookup and the reserved-key injection -/

theorem lookupProp_cons (k : String) (p : String × JVal) (l : List (String × JVal)) :
    lookupProp k (p :: l) = if p.1 = k then some p.2 else lookupProp k l := by
  by_cases hp : p.1 = k
  · simp [lookupProp, List.find?_cons_of_pos, hp]
  · simp [lookupProp, List.find?_cons_of_neg, hp]

theorem lookupProp_append_left (k : String) (l m : List (String × JVal)) (w : JVal)
    (h : lookupProp k l = some w) : lookupProp k (l ++ m) = some w := by
  induction l with
  | nil => simp [lookupProp] at h
  | cons p rest ih =>
      rw [lookupProp_cons] at h
      rw [List.cons_append, lookupProp_cons]
      by_cases hp : p.1 = k
      · simpa [hp] using h
      · rw [if_neg hp] at h ⊢
        exact ih h

theorem lookupProp_append_right (k : String) (l m : List (String × JVal))
    (h : lookupProp k l = none) : lookupProp k (l ++ m) = lookupProp k m := by
  induction l with
  | nil => simp
  | cons p rest ih =>
      rw [lookupProp_cons] at h
      rw [List.cons_append, lookupProp_cons]
      by_cases hp : p.1 = k
      · simp [hp] at h
      · rw [if_neg hp] at h ⊢
        exact ih h

theorem setEnvVal_keepsJ (key : String) (val : Option JVal) (c : JVal) (k : String)
    (w : JVal) (h : jvalLookup k c = some w) :
    jvalLookup k (setEnvVal key val c) = some w := by
  cases val with
  | none => cases c <;> simpa [setEnvVal] using h
  | some v =>
      cases c with
      | prim s => simpa [setEnvVal] using h
      | arr a => simpa [setEnvVal] using h
      | obj l =>
          simp only [jvalLookup] at h
          by_cases hp : l.any (fun p => p.1 = key)
          · simpa [setEnvVal, hp] using h
          · simp only [setEnvVal, hp, Bool.false_eq_true, if_false, jvalLookup]
            rw [setProp, if_neg (by simpa using hp)]
            exact lookupProp_append_left k l [(key, v)] w h

theorem setEnvVal_newJ (key : String) (val : Option JVal) (c : JVal) (k : String)
    (w : JVal) (h : jvalLookup k (setEnvVal key val c) = some w) :
    jvalLookup k c = some w ∨ (k = key ∧ jvalLookup k c = none) := by
  cases val with
  | none => left; cases c <;> simpa [setEnvVal] using h
  | some v =>
      cases c with
      | prim s => left; simpa [setEnvVal] using h
      | arr a => left; simpa [setEnvVal] using h
      | obj l =>
          by_cases hp : l.any (fun p => p.1 = key)
          · left; simpa [setEnvVal, hp] using h
          · simp only [setEnvVal, hp, Bool.false_eq_true, if_false, jvalLookup] at h
            rw [setProp, if_neg (by simpa using hp)] at h
            cases hlk : lookupProp k l with
            | some u =>
                left
                rw [lookupProp_append_left k l [(key, v)] u hlk] at h
                have hu : u = w := by simpa using h
                simp [jvalLookup, hlk, hu]
            | none =>
                right
                rw [lookupProp_append_right k l [(key, v)] hlk, lookupProp_cons] at h
                by_cases hk : key = k
                · exact ⟨hk.symm, by simpa [jvalLookup] using hlk⟩
                · simp [hk, lookupProp] at h

/-- The keys the `render` entry point injects (adapter.js lines 143-148). -/
def reservedKeys : List String := ["_self", "_target", "_env", "_config"]

/-- C8: for each reserved key `_self`, `_target`, `_env`, `_config`, the
render entry point injects the corresponding meta/config value into the
context only if that key is absent (undefined) in the caller's context: a
binding already present survives the injection with its value unchanged,
and every binding of the injected context either came from the caller or
sits at a reserved key that the caller had left absent. -/
theorem claimC8_theorem (cfg : AdapterCfg) (app : JVal) (m : RenderMeta)
    (l : List (String × JVal)) :
    (∀ k w, lookupProp k l = some w →
       jvalLookup k (renderInjectVal cfg app m (.obj l)) = some w)
  ∧ (∀ k w, jvalLookup k (renderInjectVal cfg app m (.obj l)) = some w →
       lookupProp k l = some w ∨ (k ∈ reservedKeys ∧ lookupProp k l = none)) := by
  constructor
  · intro k w h
    by_cases hpr : cfg.pristine
    · simpa [renderInjectVal, hpr, jvalLookup] using h
    · simp only [renderInjectVal, hpr, Bool.false_eq_true, if_false]
      exact setEnvVal_keepsJ _ _ _ _ _ (setEnvVal_keepsJ _ _ _ _ _
        (setEnvVal_keepsJ _ _ _ _ _ (setEnvVal_keepsJ _ _ _ _ _
          (by simpa [jvalLookup] using h))))
  · intro k w h
    by_cases hpr : cfg.pristine
    · left; simpa [renderInjectVal, hpr, jvalLookup] using h
    · simp only [renderInjectVal, hpr, Bool.false_eq_true, if_false] at h
      have base : jvalLookup k (JVal.obj l) = some w →
          lookupProp k l = some w ∨ (k ∈ reservedKeys ∧ lookupProp k l = none) := by
        intro hb
        left; simpa [jvalLookup] using hb
      have step : ∀ (key : String) (val : Option JVal) (c : JVal),
          (jvalLookup k c = some w →
            lookupProp k l = some w ∨ (k ∈ reservedKeys ∧ lookupProp k l = none)) →
          (jvalLookup k c = none → lookupProp k l = none) →
          key ∈ reservedKeys →
          jvalLookup k (setEnvVal key val c) = some w →
          lookupProp k l = some w ∨ (k ∈ reservedKeys ∧ lookupProp k l = none) := by
        intro key val c hsome hnone hkey hkc
        rcases setEnvVal_newJ key val c k w hkc with hc | ⟨hkk, hcn⟩
        · exact hsome hc
        · exact Or.inr ⟨hkk ▸ hkey, hnone hcn⟩
      have keepNone : ∀ (key : String) (val : Option JVal) (c : JVal),
          jvalLookup k (setEnvVal key val c) = none → jvalLookup k c = none := by
        intro key val c hcn
        cases hkc : jvalLookup k c with
        | none => rfl
        | some u => rw [setEnvVal_keepsJ key val c k u hkc] at hcn; exact absurd hcn (by simp)
      refine step "_config" (some app) _ (fun hb => ?_) (fun hb => ?_) (by simp [reservedKeys]) h
      · refine step "_env" m.env _ (fun hc => ?_) (fun hc => ?_) (by simp [reservedKeys]) hb
        · refine step "_target" m.target _ (fun hd => ?_) (fun hd => ?_) (by simp [reservedKeys]) hc
          · exact step "_self" m.self _ base (fun hbn => by simpa [jvalLookup] using hbn)
              (by simp [reservedKeys]) hd
          · have := keepNone "_self" m.self _ hd
            simpa [jvalLookup] using this
        · have := keepNone "_target" m.target _ hc
          have := keepNone "_self" m.self _ this
          simpa [jvalLookup] using this
      · have := keepNone "_env" m.env _ hb
        have := keepNone "_target" m.target _ this
        have := keepNone "_self" m.self _ this
        simpa [jvalLookup] using this

/-- C8 witness: a `_self` binding supplied by the caller survives the
injection unchanged even when `meta.self` is defined. -/
theorem claimC8_witness :
    jvalLookup "_self"
        (renderInjectVal ⟨false, "@", false⟩ (.obj []) ⟨some (.prim "S"), none, none⟩
          (.obj [("_self", .prim "mine")]))
      = some (.prim "mine") :=
  (claimC8_theorem ⟨false, "@", false⟩ (.obj []) ⟨some (.prim "S"), none, none⟩
    [("_self", .prim "mine")]).1 "_self" (.prim "mine") rfl

/-! ## Lemmas about the heap and the context patcher -/

theorem readRef_writeRef_self (h : Heap) (r : Nat) (v : JVal) (hr : r < h.length) :
    readRef (writeRef h r v) r = v := by
  simp [readRef, writeRef, List.getD, List.getElem?_set_self hr]

theorem readRef_writeRef_ne (h : Heap) (r r2 : Nat) (v : JVal) (hne : r2 ≠ r) :
    readRef (writeRef h r2 v) r = readRef h r := by
  simp [readRef, writeRef, List.getD, List.getElem?_set_ne hne]

theorem readRef_append_lt (h : Heap) (m : List JVal) (r : Nat) (hr : r < h.length) :
    readRef (h ++ m) r = readRef h r := by
  simp [readRef, List.getD, List.getElem?_append_left hr]

theorem readRef_concat_self (h : Heap) (v : JVal) :
    readRef (h ++ [v]) h.length = v := by
  simp [readRef, List.getD, List.getElem?_concat_length]

theorem any_eq_false_of_lookupProp_none (k : String) (l : List (String × JVal))
    (h : lookupProp k l = none) : l.any (fun p => p.1 = k) = false := by
  induction l with
  | nil => rfl
  | cons p rest ih =>
      rw [lookupProp_cons] at h
      by_cases hp : p.1 = k
      · simp [hp] at h
      · simp only [List.any_cons]
        rw [if_neg hp] at h
        simp [hp, ih h]

theorem lookupProp_map_replace (k k2 : String) (v : JVal) (l : List (String × JVal))
    (hne : k2 ≠ k) :
    lookupProp k (l.map (fun q => if q.1 = k2 then (k2, v) else q)) = lookupProp k l := by
  induction l with
  | nil => rfl
  | cons p rest ih =>
      rw [List.map_cons, lookupProp_cons, lookupProp_cons]
      by_cases hp : p.1 = k2
      · rw [if_pos hp, if_neg (show ¬(((k2, v) : String × JVal).1 = k) from hne),
          if_neg (show ¬(p.1 = k) from hp ▸ hne)]
        exact ih
      · rw [if_neg hp]
        by_cases hk : p.1 = k
        · rw [if_pos hk, if_pos hk]
        · rw [if_neg hk, if_neg hk]
          exact ih

theorem lookupProp_none_of_any_false (k : String) (l : List (String × JVal))
    (h : l.any (fun p => p.1 = k) = false) : lookupProp k l = none := by
  induction l with
  | nil => rfl
  | cons p rest ih =>
      rw [lookupProp_cons]
      by_cases hp : p.1 = k
      · simp [List.any_cons, hp] at h
      · rw [if_neg hp]
        exact ih (by simpa [List.any_cons, hp] using h)

theorem lookupProp_setProp_self (k : String) (v : JVal) (l : List (String × JVal)) :
    lookupProp k (setProp k v l) = some v := by
  by_cases hany : l.any (fun p => p.1 = k)
  · rw [setProp, if_pos hany]
    induction l with
    | nil => simp at hany
    | cons p rest ih =>
        rw [List.map_cons, lookupProp_cons]
        by_cases hp : p.1 = k
        · rw [if_pos hp]
          simp
        · rw [if_neg hp, if_neg (show ¬(p.1 = k) from hp)]
          have hrest : rest.any (fun p => p.1 = k) = true := by
            simpa [List.any_cons, hp] using hany
          exact ih hrest
  · rw [setProp, if_neg hany]
    have hnone : lookupProp k l = none :=
      lookupProp_none_of_any_false k l (Bool.eq_false_iff.mpr hany)
    rw [lookupProp_append_right k l [(k, v)] hnone, lookupProp_cons]
    simp

theorem lookupProp_setProp_ne (k k2 : String) (v : JVal) (l : List (String × JVal))
    (hne : k2 ≠ k) : lookupProp k (setProp k2 v l) = lookupProp k l := by
  by_cases hany : l.any (fun p => p.1 = k2)
  · rw [setProp, if_pos hany]
    exact lookupProp_map_replace k k2 v l hne
  · rw [setProp, if_neg hany]
    cases hlk : lookupProp k l with
    | some u => rw [lookupProp_append_left k l [(k2, v)] u hlk]
    | none =>
        rw [lookupProp_append_right k l [(k2, v)] hlk, lookupProp_cons, if_neg hne]
        rfl

theorem lookupProp_setKeysEntries_private (k : String) (hk : keyIsPublic k = false)
    (l : List (String × JVal)) :
    lookupProp k (setKeysEntries l) = lookupProp k l := by
  induction l with
  | nil => simp [setKeysEntries]
  | cons p rest ih =>
      obtain ⟨k0, v0⟩ := p
      simp only [setKeysEntries]
      by_cases hc : (isPlainObjectB v0 && keyIsPublic k0) = true
      · rw [if_pos hc, lookupProp_cons, lookupProp_cons]
        by_cases h0 : k0 = k
        · exfalso
          have hpub : keyIsPublic k0 = true := (Bool.and_eq_true_iff.mp hc).2
          rw [h0, hk] at hpub
          exact Bool.false_ne_true hpub
        · rw [if_neg (show ¬(((k0, setKeysVal v0) : String × JVal).1 = k) from h0),
            if_neg (show ¬(((k0, v0) : String × JVal).1 = k) from h0)]
          exact ih
      · rw [if_neg hc, lookupProp_cons, lookupProp_cons]
        by_cases h0 : k0 = k
        · rw [if_pos h0, if_pos h0]
        · rw [if_neg h0, if_neg h0]
          exact ih

theorem jvalLookup_setKeysVal_private (k : String) (hk : keyIsPublic k = false)
    (hkk : k ≠ "_keys") (l : List (String × JVal)) :
    jvalLookup k (setKeysVal (.obj l)) = lookupProp k l := by
  simp only [setKeysVal, jvalLookup]
  rw [lookupProp_setProp_ne k "_keys" _ _ (Ne.symm hkk)]
  exact lookupProp_setKeysEntries_private k hk l

theorem defaultsDeep_obj (dl : List (String × JVal)) (s : JVal) :
    ∃ ml, defaultsDeep (.obj dl) s = .obj ml := by
  cases s with
  | prim t => exact ⟨dl, by simp [defaultsDeep]⟩
  | arr a => exact ⟨dl, by simp [defaultsDeep]⟩
  | obj sl =>
      exact ⟨defaultsEntries dl sl ++ sl.filter (fun q => !(dl.any (fun p => p.1 = q.1))),
        by simp [defaultsDeep]⟩

/-- C3: when `importContext` is enabled and the ContextPatcher resolves
the rendering template to an owning entity, the context handed to the
original render carries, under `_self`, the serialization (`toJSON`) of
that entity's default variant (or of the entity itself when it is already
a variant); when `importContext` is disabled, the caller's context is
passed through untouched, so `_self` stays whatever the caller supplied
(or absent). -/
theorem claimC3_theorem (cfg : AdapterCfg) (src : Source) (find : String → Option Ent)
    (id? : Option String) (e : Ent) (h : Heap) (r : Nat) (l : List (String × JVal))
    (hp : patchEntity cfg src find id? = some e)
    (hctx : readRef h r = .obj l) :
    (cfg.importContext = true →
       jvalLookup "_self"
           (readRef (patchRenderH cfg src find id? h r).1 (patchRenderH cfg src find id? h r).2)
         = some (chosenEntData e).json)
  ∧ (cfg.importContext = false → patchRenderH cfg src find id? h r = (h, r)) := by
  constructor
  · intro hic
    have hM : cloneDeep (readRef h r) = .obj (cloneDeepEntries l) := by
      rw [hctx]; rw [cloneDeep]
    obtain ⟨ml, hml⟩ := defaultsDeep_obj (cloneDeepEntries l) (chosenEntData e).ctxData
    have hMM : defaultsDeep (cloneDeep (readRef h r)) (chosenEntData e).ctxData = .obj ml := by
      rw [hM, hml]
    simp only [patchRenderH, hp, hic, if_true, allocRef, hMM]
    rw [readRef_concat_self]
    rw [readRef_writeRef_self (h ++ [JVal.obj ml]) h.length
      (jvalSetProp "_self" (chosenEntData e).json (JVal.obj ml)) (by simp)]
    rw [readRef_writeRef_self
      (writeRef (h ++ [JVal.obj ml]) h.length
        (jvalSetProp "_self" (chosenEntData e).json (JVal.obj ml))) h.length
      (setKeysVal (jvalSetProp "_self" (chosenEntData e).json (JVal.obj ml)))
      (by simp [writeRef])]
    simp only [jvalSetProp]
    rw [jvalLookup_setKeysVal_private "_self" (by decide) (by decide)]
    exact lookupProp_setProp_self _ _ _
  · intro hic
    simp [patchRenderH, hp, hic]

/-- C9: when context-import is enabled and an entity is resolved, the
ContextPatcher builds the merged, `_self`-patched, `_keys`-recomputed
context in a freshly allocated object distinct from the caller's, and the
caller's original context object is left unchanged by the merge, the
`_self` assignment and the `_keys` recomputation. -/
theorem claimC9_theorem (cfg : AdapterCfg) (src : Source) (find : String → Option Ent)
    (id? : Option String) (e : Ent) (h : Heap) (r : Nat)
    (hr : r < h.length)
    (hp : patchEntity cfg src find id? = some e)
    (hic : cfg.importContext = true) :
    (patchRenderH cfg src find id? h r).2 ≠ r
  ∧ readRef (patchRenderH cfg src find id? h r).1 r = readRef h r := by
  constructor
  · simp only [patchRenderH, hp, hic, if_true, allocRef]
    omega
  · simp only [patchRenderH, hp, hic, if_true, allocRef]
    rw [readRef_writeRef_ne _ _ _ _ (by omega), readRef_writeRef_ne _ _ _ _ (by omega),
      readRef_append_lt _ _ _ hr]

/-- C10 (implicit): the top-level render entry point's reserved-key
injection mutates the caller-supplied context object in place: the four
`setEnv` calls write through the caller's reference, so after render the
caller's own context cell holds the injected object, and an absent
reserved key (here `_self`, with `meta.self` defined) has been added to
the caller's own mapping. -/
theorem claimC10_theorem (cfg : AdapterCfg) (app : JVal) (m : RenderMeta)
    (h : Heap) (r : Nat) (l : List (String × JVal)) (v : JVal)
    (hr : r < h.length)
    (hctx : readRef h r = .obj l)
    (hpr : cfg.pristine = false)
    (habs : lookupProp "_self" l = none)
    (hself : m.self = some v) :
    readRef (renderInjectH cfg app m h r) r = renderInjectVal cfg app m (.obj l)
  ∧ jvalLookup "_self" (readRef (renderInjectH cfg app m h r) r) = some v := by
  have e1 : readRef (setEnvH "_self" m.self h r) r
      = setEnvVal "_self" m.self (.obj l) := by
    rw [setEnvH, readRef_writeRef_self _ _ _ hr, hctx]
  have l1 : r < (setEnvH "_self" m.self h r).length := by
    simpa [setEnvH, writeRef] using hr
  have e2 : readRef (setEnvH "_target" m.target (setEnvH "_self" m.self h r) r) r
      = setEnvVal "_target" m.target (setEnvVal "_self" m.self (.obj l)) := by
    rw [setEnvH, readRef_writeRef_self _ _ _ l1, e1]
  have l2 : r < (setEnvH "_target" m.target (setEnvH "_self" m.self h r) r).length := by
    simpa [setEnvH, writeRef] using l1
  have e3 : readRef (setEnvH "_env" m.env
        (setEnvH "_target" m.target (setEnvH "_self" m.self h r) r) r) r
      = setEnvVal "_env" m.env
          (setEnvVal "_target" m.target (setEnvVal "_self" m.self (.obj l))) := by
    rw [setEnvH, readRef_writeRef_self _ _ _ l2, e2]
  have l3 : r < (setEnvH "_env" m.env
      (setEnvH "_target" m.target (setEnvH "_self" m.self h r) r) r).length := by
    simpa [setEnvH, writeRef] using l2
  have hread : readRef (renderInjectH cfg app m h r) r = renderInjectVal cfg app m (.obj l) := by
    simp only [renderInjectH, renderInjectVal, hpr, Bool.false_eq_true, if_false]
    rw [setEnvH, readRef_writeRef_self _ _ _ l3, e3]
  refine ⟨hread, ?_⟩
  rw [hread]
  simp only [renderInjectVal, hpr, Bool.false_eq_true, if_false]
  apply setEnvVal_keepsJ
  apply setEnvVal_keepsJ
  apply setEnvVal_keepsJ
  rw [hself]
  have hany := any_eq_false_of_lookupProp_none "_self" l habs
  simp only [setEnvVal, hany, Bool.false_eq_true, if_false, jvalLookup]
  exact lookupProp_setProp_self _ _ _

/-- Sample entity for the context-patching witnesses: not itself a
variant, so its default variant's data is the one that must be used. -/
def sampleEnt : Ent :=
  ⟨false, ⟨.obj [], .prim "SELF"⟩, ⟨.obj [("color", .prim "red")], .prim "VARIANT"⟩⟩

/-- Sample library find capability for the witnesses. -/
def sampleFind : String → Option Ent :=
  fun s => if s = "@button" then some sampleEnt else none

/-- Sample configuration with context import enabled. -/
def sampleCfgImport : AdapterCfg := ⟨false, "@", true⟩

/-- Sample empty library source. -/
def sampleSrc : Source := ⟨"root", []⟩

/-- Sample one-cell heap holding a caller context. -/
def sampleHeap : Heap := [.obj [("x", .prim "1")]]

/-- C3 witness: rendering the `@button` template with `importContext` on
patches `_self` to the serialization of the entity's default variant. -/
theorem claimC3_witness :
    jvalLookup "_self"
        (readRef (patchRenderH sampleCfgImport sampleSrc sampleFind (some "@button") sampleHeap 0).1
                 (patchRenderH sampleCfgImport sampleSrc sampleFind (some "@button") sampleHeap 0).2)
      = some (chosenEntData sampleEnt).json :=
  (claimC3_theorem sampleCfgImport sampleSrc sampleFind (some "@button") sampleEnt sampleHeap 0
    [("x", .prim "1")] rfl rfl).1 rfl

/-- C9 witness: the patched context lives at a fresh reference and the
caller's cell is unchanged. -/
theorem claimC9_witness :
    (patchRenderH sampleCfgImport sampleSrc sampleFind (some "@button") sampleHeap 0).2 ≠ 0
  ∧ readRef (patchRenderH sampleCfgImport sampleSrc sampleFind (some "@button") sampleHeap 0).1 0
      = readRef sampleHeap 0 :=
  claimC9_theorem sampleCfgImport sampleSrc sampleFind (some "@button") sampleEnt sampleHeap 0
    (by decide) rfl rfl

/-- C10 witness: after the injection the caller's own cell carries the
previously absent `_self`. -/
theorem claimC10_witness :
    readRef (renderInjectH ⟨false, "@", false⟩ (.obj []) ⟨some (.prim "ME"), none, none⟩ sampleHeap 0) 0
      = renderInjectVal ⟨false, "@", false⟩ (.obj []) ⟨some (.prim "ME"), none, none⟩
          (.obj [("x", .prim "1")])
  ∧ jvalLookup "_self"
        (readRef (renderInjectH ⟨false, "@", false⟩ (.obj []) ⟨some (.prim "ME"), none, none⟩ sampleHeap 0) 0)
      = some (.prim "ME") :=
  claimC10_theorem ⟨false, "@", false⟩ (.obj []) ⟨some (.prim "ME"), none, none⟩ sampleHeap 0
    [("x", .prim "1")] (.prim "ME") (by decide) rfl rfl rfl rfl

/-! ## Lemmas about `setKeys`: key preservation and idempotence -/

theorem keyIsPublic_underscoreKeys : keyIsPublic "_keys" = false := by decide

theorem isPlainObjectB_setKeysVal (v : JVal) :
    isPlainObjectB (setKeysVal v) = isPlainObjectB v := by
  cases v with
  | prim s => rw [setKeysVal]
  | arr a => rw [setKeysVal]
  | obj l => rw [setKeysVal]; rfl

theorem any_fst_eq (m : List (String × JVal)) (k : String) :
    m.any (fun p => p.1 = k) = (m.map Prod.fst).any (fun s => s = k) := by
  induction m with
  | nil => rfl
  | cons p rest ih => simp [List.any_cons, ih]

theorem keys_setKeysEntries (l : List (String × JVal)) :
    (setKeysEntries l).map Prod.fst = l.map Prod.fst := by
  induction l with
  | nil => simp [setKeysEntries]
  | cons p rest ih =>
      obtain ⟨k, v⟩ := p
      by_cases hc : (isPlainObjectB v && keyIsPublic k) = true
      · simp only [setKeysEntries]
        rw [if_pos hc, List.map_cons, List.map_cons, ih]
      · simp only [setKeysEntries]
        rw [if_neg hc, List.map_cons, List.map_cons, ih]

theorem computeKeys_eq_of_keys (l1 l2 : List (String × JVal))
    (h : l1.map Prod.fst = l2.map Prod.fst) : computeKeys l1 = computeKeys l2 := by
  have e : ∀ m : List (String × JVal),
      computeKeys m = compact ((m.map Prod.fst).map
        (fun k => if keyIsPublic k then some k else none)) := by
    intro m
    rw [computeKeys, List.map_map]
    rfl
  rw [e l1, e l2, h]

theorem any_key_eq_of_keys (l1 l2 : List (String × JVal)) (k : String)
    (h : l1.map Prod.fst = l2.map Prod.fst) :
    l1.any (fun p => p.1 = k) = l2.any (fun p => p.1 = k) := by
  rw [any_fst_eq l1 k, any_fst_eq l2 k, h]

theorem computeKeys_append (a b : List (String × JVal)) :
    computeKeys (a ++ b) = computeKeys a ++ computeKeys b := by
  simp [computeKeys, compact, List.map_append, List.filterMap_append]

theorem computeKeys_setProp_keys (x : JVal) (m : List (String × JVal)) :
    computeKeys (setProp "_keys" x m) = computeKeys m := by
  by_cases hany : m.any (fun p => p.1 = "_keys")
  · rw [setProp, if_pos hany]
    apply computeKeys_eq_of_keys
    rw [List.map_map]
    apply List.map_congr_left
    intro p _
    by_cases hp : p.1 = "_keys"
    · simp [Function.comp, hp]
    · simp [Function.comp, hp]
  · rw [setProp, if_neg hany, computeKeys_append]
    have : computeKeys [("_keys", x)] = [] := by
      simp [computeKeys, compact, keyIsPublic_underscoreKeys]
    rw [this, List.append_nil]

theorem setKeysEntries_append (a b : List (String × JVal)) :
    setKeysEntries (a ++ b) = setKeysEntries a ++ setKeysEntries b := by
  induction a with
  | nil => simp [setKeysEntries]
  | cons p rest ih =>
      obtain ⟨k, v⟩ := p
      rw [List.cons_append]
      simp only [setKeysEntries]
      rw [ih, List.cons_append]

theorem setKeysEntries_map_replace_keys (ks : List String) (m : List (String × JVal)) :
    setKeysEntries (m.map (fun p => if p.1 = "_keys" then ("_keys", JVal.arr ks) else p))
      = (setKeysEntries m).map (fun p => if p.1 = "_keys" then ("_keys", JVal.arr ks) else p) := by
  induction m with
  | nil => simp [setKeysEntries]
  | cons q rest ih =>
      obtain ⟨k0, v0⟩ := q
      by_cases h0 : k0 = "_keys"
      · subst h0
        rw [List.map_cons, if_pos rfl]
        have lhs1 : setKeysEntries (("_keys", JVal.arr ks) ::
              rest.map (fun p => if p.1 = "_keys" then ("_keys", JVal.arr ks) else p))
            = ("_keys", JVal.arr ks) ::
              setKeysEntries (rest.map (fun p => if p.1 = "_keys" then ("_keys", JVal.arr ks) else p)) := by
          simp only [setKeysEntries]
          rw [if_neg (by simp [isPlainObjectB])]
        have rhs1 : setKeysEntries (("_keys", v0) :: rest)
            = ("_keys", v0) :: setKeysEntries rest := by
          simp only [setKeysEntries]
          rw [if_neg (by simp [keyIsPublic_underscoreKeys])]
        rw [lhs1, rhs1, ih, List.map_cons, if_pos rfl]
      · rw [List.map_cons, if_neg h0]
        by_cases hc : (isPlainObjectB v0 && keyIsPublic k0) = true
        · have lhs1 : setKeysEntries ((k0, v0) ::
                rest.map (fun p => if p.1 = "_keys" then ("_keys", JVal.arr ks) else p))
              = (k0, setKeysVal v0) ::
                setKeysEntries (rest.map (fun p => if p.1 = "_keys" then ("_keys", JVal.arr ks) else p)) := by
            simp only [setKeysEntries]
            rw [if_pos hc]
          have rhs1 : setKeysEntries ((k0, v0) :: rest)
              = (k0, setKeysVal v0) :: setKeysEntries rest := by
            simp only [setKeysEntries]
            rw [if_pos hc]
          rw [lhs1, rhs1, ih, List.map_cons, if_neg h0]
        · have lhs1 : setKeysEntries ((k0, v0) ::
                rest.map (fun p => if p.1 = "_keys" then ("_keys", JVal.arr ks) else p))
              = (k0, v0) ::
                setKeysEntries (rest.map (fun p => if p.1 = "_keys" then ("_keys", JVal.arr ks) else p)) := by
            simp only [setKeysEntries]
            rw [if_neg hc]
          have rhs1 : setKeysEntries ((k0, v0) :: rest)
              = (k0, v0) :: setKeysEntries rest := by
            simp only [setKeysEntries]
            rw [if_neg hc]
          rw [lhs1, rhs1, ih, List.map_cons, if_neg h0]

theorem setKeysEntries_setProp_keys (ks : List String) (m : List (String × JVal)) :
    setKeysEntries (setProp "_keys" (.arr ks) m)
      = setProp "_keys" (.arr ks) (setKeysEntries m) := by
  by_cases hany : m.any (fun p => p.1 = "_keys")
  · rw [setProp, if_pos hany, setProp,
      if_pos (by rw [any_key_eq_of_keys _ m _ (keys_setKeysEntries m)]; exact hany)]
    exact setKeysEntries_map_replace_keys ks m
  · rw [setProp, if_neg hany, setProp,
      if_neg (by rw [any_key_eq_of_keys _ m _ (keys_setKeysEntries m)]; exact hany)]
    rw [setKeysEntries_append]
    have : setKeysEntries [("_keys", JVal.arr ks)] = [("_keys", JVal.arr ks)] := by
      simp only [setKeysEntries]
      rw [if_neg (by simp [isPlainObjectB])]
    rw [this]

theorem setProp_setProp_same (k : String) (v : JVal) (l : List (String × JVal)) :
    setProp k v (setProp k v l) = setProp k v l := by
  by_cases hany : l.any (fun p => p.1 = k)
  · have hin : setProp k v l = l.map (fun p => if p.1 = k then (k, v) else p) := by
      rw [setProp, if_pos hany]
    rw [hin]
    have hany2 : (l.map (fun p => if p.1 = k then (k, v) else p)).any (fun p => p.1 = k)
        = true := by
      obtain ⟨p, hp, hpk⟩ := (List.any_eq_true).mp hany
      refine (List.any_eq_true).mpr ⟨(k, v), List.mem_map.mpr ⟨p, hp, ?_⟩, by simp⟩
      rw [if_pos (by simpa using hpk)]
    rw [setProp, if_pos hany2, List.map_map]
    apply List.map_congr_left
    intro p _
    by_cases h : p.1 = k <;> simp [Function.comp, h]
  · have hin : setProp k v l = l ++ [(k, v)] := by
      rw [setProp, if_neg hany]
    rw [hin]
    have hany2 : (l ++ [(k, v)]).any (fun p => p.1 = k) = true := by
      simp [List.any_append]
    rw [setProp, if_pos hany2, List.map_append]
    have h1 : l.map (fun p => if p.1 = k then (k, v) else p) = l := by
      have hfix : ∀ p ∈ l, (if p.1 = k then ((k, v) : String × JVal) else p) = id p := by
        intro p hp
        have hne : ¬(p.1 = k) := by
          intro hc
          exact hany ((List.any_eq_true).mpr ⟨p, hp, by simpa using hc⟩)
        rw [if_neg hne]
        rfl
      rw [List.map_congr_left hfix, List.map_id]
    have h2 : ([(k, v)] : List (String × JVal)).map (fun p => if p.1 = k then (k, v) else p)
        = [(k, v)] := by simp
    rw [h1, h2]

theorem visitPathsEntries_append (a b : List (String × JVal)) :
    visitPathsEntries (a ++ b) = visitPathsEntries a ++ visitPathsEntries b := by
  induction a with
  | nil => simp [visitPathsEntries]
  | cons p rest ih =>
      obtain ⟨k, v⟩ := p
      rw [List.cons_append]
      simp only [visitPathsEntries]
      rw [ih, List.append_assoc]

theorem visitPathsEntries_map_replace_keys (ks : List String) (m : List (String × JVal)) :
    visitPathsEntries (m.map (fun p => if p.1 = "_keys" then ("_keys", JVal.arr ks) else p))
      = visitPathsEntries m := by
  induction m with
  | nil => rfl
  | cons q rest ih =>
      obtain ⟨k0, v0⟩ := q
      by_cases h0 : k0 = "_keys"
      · subst h0
        rw [List.map_cons, if_pos rfl]
        simp [visitPathsEntries, isPlainObjectB, keyIsPublic_underscoreKeys, ih]
      · rw [List.map_cons, if_neg h0]
        simp only [visitPathsEntries, ih]

theorem visitPathsEntries_setProp_keys (ks : List String) (m : List (String × JVal)) :
    visitPathsEntries (setProp "_keys" (.arr ks) m) = visitPathsEntries m := by
  by_cases hany : m.any (fun p => p.1 = "_keys")
  · rw [setProp, if_pos hany]
    exact visitPathsEntries_map_replace_keys ks m
  · rw [setProp, if_neg hany, visitPathsEntries_append]
    have h1 : visitPathsEntries [("_keys", JVal.arr ks)] = [] := by
      simp [visitPathsEntries, isPlainObjectB]
    rw [h1, List.append_nil]

theorem setKeysVal_idem : ∀ v : JVal, setKeysVal (setKeysVal v) = setKeysVal v :=
  setKeysVal.induct
    (fun v => setKeysVal (setKeysVal v) = setKeysVal v)
    (fun l => setKeysEntries (setKeysEntries l) = setKeysEntries l)
    (fun s => by simp [setKeysVal])
    (fun a => by simp [setKeysVal])
    (fun l ih => by
      show setKeysVal (setKeysVal (.obj l)) = setKeysVal (.obj l)
      have ihe : setKeysEntries (setKeysEntries l) = setKeysEntries l := ih
      have e1 : setKeysVal (.obj l)
          = .obj (setProp "_keys" (.arr (computeKeys l)) (setKeysEntries l)) := by
        rw [setKeysVal]
      rw [e1, setKeysVal]
      have hkeys : computeKeys (setProp "_keys" (JVal.arr (computeKeys l)) (setKeysEntries l))
          = computeKeys l := by
        rw [computeKeys_setProp_keys]
        exact computeKeys_eq_of_keys _ _ (keys_setKeysEntries l)
      rw [hkeys, setKeysEntries_setProp_keys, ihe, setProp_setProp_same])
    (by simp [setKeysEntries])
    (fun k v rest ih1 ih2 => by
      show setKeysEntries (setKeysEntries ((k, v) :: rest)) = setKeysEntries ((k, v) :: rest)
      have ih1e : setKeysVal (setKeysVal v) = setKeysVal v := ih1
      have ih2e : setKeysEntries (setKeysEntries rest) = setKeysEntries rest := ih2
      by_cases hc : (isPlainObjectB v && keyIsPublic k) = true
      · have inner : setKeysEntries ((k, v) :: rest)
            = (k, setKeysVal v) :: setKeysEntries rest := by
          simp only [setKeysEntries]
          rw [if_pos hc]
        rw [inner]
        have hc2 : (isPlainObjectB (setKeysVal v) && keyIsPublic k) = true := by
          rw [isPlainObjectB_setKeysVal]; exact hc
        have outer : setKeysEntries ((k, setKeysVal v) :: setKeysEntries rest)
            = (k, setKeysVal (setKeysVal v)) :: setKeysEntries (setKeysEntries rest) := by
          simp only [setKeysEntries]
          rw [if_pos hc2]
        rw [outer, ih1e, ih2e]
      · have inner : setKeysEntries ((k, v) :: rest) = (k, v) :: setKeysEntries rest := by
          simp only [setKeysEntries]
          rw [if_neg hc]
        rw [inner]
        have outer : setKeysEntries ((k, v) :: setKeysEntries rest)
            = (k, v) :: setKeysEntries (setKeysEntries rest) := by
          simp only [setKeysEntries]
          rw [if_neg hc]
        rw [outer, ih2e])

theorem setKeysVal_visits : ∀ v : JVal, visitPaths (setKeysVal v) = visitPaths v :=
  setKeysVal.induct
    (fun v => visitPaths (setKeysVal v) = visitPaths v)
    (fun l => visitPathsEntries (setKeysEntries l) = visitPathsEntries l)
    (fun s => by simp [setKeysVal])
    (fun a => by simp [setKeysVal])
    (fun l ih => by
      show visitPaths (setKeysVal (.obj l)) = visitPaths (.obj l)
      have ihe : visitPathsEntries (setKeysEntries l) = visitPathsEntries l := ih
      rw [setKeysVal, visitPaths, visitPaths, visitPathsEntries_setProp_keys, ihe])
    (by simp [setKeysEntries])
    (fun k v rest ih1 ih2 => by
      show visitPathsEntries (setKeysEntries ((k, v) :: rest))
        = visitPathsEntries ((k, v) :: rest)
      have ih1e : visitPaths (setKeysVal v) = visitPaths v := ih1
      have ih2e : visitPathsEntries (setKeysEntries rest) = visitPathsEntries rest := ih2
      by_cases hc : (isPlainObjectB v && keyIsPublic k) = true
      · have inner : setKeysEntries ((k, v) :: rest)
            = (k, setKeysVal v) :: setKeysEntries rest := by
          simp only [setKeysEntries]
          rw [if_pos hc]
        rw [inner]
        simp only [visitPathsEntries]
        have hc2 : (isPlainObjectB (setKeysVal v) && keyIsPublic k) = true := by
          rw [isPlainObjectB_setKeysVal]; exact hc
        rw [if_pos hc2, if_pos hc, ih1e, ih2e]
      · have inner : setKeysEntries ((k, v) :: rest) = (k, v) :: setKeysEntries rest := by
          simp only [setKeysEntries]
          rw [if_neg hc]
        rw [inner]
        simp only [visitPathsEntries]
        rw [ih2e])

theorem computeKeys_cons (p : String × JVal) (rest : List (String × JVal)) :
    computeKeys (p :: rest)
      = (if keyIsPublic p.1 = true then (if p.1 = "" then [] else [p.1]) else [])
          ++ computeKeys rest := by
  by_cases hpub : keyIsPublic p.1 = true
  · by_cases hemp : p.1 = ""
    · rw [hemp] at hpub
      simp [computeKeys, compact, hemp, hpub]
    · simp [computeKeys, compact, hpub, hemp]
  · simp [computeKeys, compact, hpub]

theorem computeKeys_mem_public (l : List (String × JVal)) (k : String)
    (hk : k ∈ computeKeys l) : keyIsPublic k = true := by
  induction l with
  | nil => simp [computeKeys, compact] at hk
  | cons p rest ih =>
      rw [computeKeys_cons] at hk
      rcases List.mem_append.mp hk with h1 | h2
      · by_cases hpub : keyIsPublic p.1 = true
        · rw [if_pos hpub] at h1
          by_cases hemp : p.1 = ""
          · simp [hemp] at h1
          · rw [if_neg hemp] at h1
            have : k = p.1 := by simpa using h1
            rw [this]
            exact hpub
        · rw [if_neg hpub] at h1
          simp at h1
      · exact ih h2

/-- C4: the key-regeneration step `setKeys` is idempotent: invoking it
twice on the same value produces the same result (in particular the same
`_keys` ordering everywhere) and the second invocation visits exactly the
set of nested mappings the first one visited; moreover keys beginning
with an underscore never appear in the computed `_keys` list, and entries
under such keys are never recursed into (they survive the entry pass
verbatim). -/
theorem claimC4_theorem :
    (∀ v : JVal, setKeysVal (setKeysVal v) = setKeysVal v)
  ∧ (∀ v : JVal, visitPaths (setKeysVal v) = visitPaths v)
  ∧ (∀ (l : List (String × JVal)) (k : String),
       jsStartsWith k "_" = true → k ∉ computeKeys l)
  ∧ (∀ (l : List (String × JVal)) (p : String × JVal),
       p ∈ l → jsStartsWith p.1 "_" = true → p ∈ setKeysEntries l) := by
  refine ⟨setKeysVal_idem, setKeysVal_visits, ?_, ?_⟩
  · intro l k hk hmem
    have hpub := computeKeys_mem_public l k hmem
    rw [keyIsPublic, hk] at hpub
    simp at hpub
  · intro l p hp hund
    obtain ⟨k0, v0⟩ := p
    have hund2 : jsStartsWith k0 "_" = true := hund
    have hpub : keyIsPublic k0 = false := by
      rw [keyIsPublic, hund2]
      rfl
    induction l with
    | nil => simp at hp
    | cons q rest ih =>
        obtain ⟨k1, w1⟩ := q
        rcases List.mem_cons.mp hp with h1 | h2
        · rw [Prod.mk.injEq] at h1
          obtain ⟨hk01, hv01⟩ := h1
          subst hk01
          subst hv01
          simp only [setKeysEntries]
          rw [if_neg (by rw [hpub]; simp)]
          exact List.mem_cons_self _ _
        · simp only [setKeysEntries]
          exact List.mem_cons_of_mem _ (ih h2)

/-- C4 witness. -/
theorem claimC4_witness :
    setKeysVal (setKeysVal (.obj [("a", .obj [("b", .prim "1")]), ("_p", .obj [("c", .prim "2")])]))
      = setKeysVal (.obj [("a", .obj [("b", .prim "1")]), ("_p", .obj [("c", .prim "2")])])
  ∧ visitPaths (setKeysVal (.obj [("a", .obj [])])) = visitPaths (.obj [("a", .obj [])])
  ∧ "_hidden" ∉ computeKeys [("_hidden", JVal.prim "x"), ("a", JVal.prim "y")]
  ∧ (("_p", JVal.obj [("c", JVal.prim "2")]) : String × JVal)
      ∈ setKeysEntries [("a", .prim "1"), ("_p", .obj [("c", .prim "2")])] :=
  ⟨claimC4_theorem.1 _, claimC4_theorem.2.1 _,
   claimC4_theorem.2.2.1 _ _ (by decide),
   claimC4_theorem.2.2.2 _ _ (by simp) (by decide)⟩

end FractalTwig
